import Mathlib

/-!
Shallow embedding of the SafeC guarded memory/string primitives
(secure_string_header_only.h) and verification of its specification.

Memory regions are byte lists (`List Nat`, each entry a byte value);
`size_t` values are natural numbers, with arithmetic reduced modulo
`sizeMod = 2 ^ 64` exactly where the C code performs `size_t`
arithmetic that can wrap.  A pointer is a nullness flag together with
the bytes reachable through it.  The abort family returns a `CResult`:
either the written memory (the C functions return the destination
address and the model returns the destination contents) or the
violation raised by the never-returning handler it invoked.  The try
family returns the error code paired with the destination contents
after the call.
-/

/-- Modulus of `size_t` arithmetic on an LP64 platform. -/
def sizeMod : Nat := 2 ^ 64

/-- Error code for a detected potential buffer overflow (matches ERANGE). -/
def ERR_POTENTIAL_BUFFER_OVERFLOW : Nat := 34

/-- Error code for a detected potential integer overflow (matches EOVERFLOW). -/
def ERR_POTENTIAL_INTEGER_OVERFLOW : Nat := 75

/-- The violation raised by one of the never-returning handler functions,
with the numeric context the handler receives. -/
inductive Violation where
  | bufferOverflowWithSize (destination_size : Nat) (writing_size : Nat)
  | bufferOverflow
  | oobRead
  | integerOverflow
  | nullPointer
  deriving DecidableEq, Repr

/-- Outcome of an abort-family call: the returned value, or the violation
passed to the (never-returning) handler. -/
inductive CResult (α : Type) where
  | ok (val : α)
  | violation (v : Violation)
  deriving DecidableEq, Repr

/-- A C pointer argument: a nullness flag plus the bytes reachable through
the pointer. -/
structure CPtr where
  null : Bool
  data : List Nat
  deriving DecidableEq, Repr

/-- Effect of `memcpy(dst + off, src, count)` on byte-list memory. -/
def memWrite (dst : List Nat) (off : Nat) (src : List Nat) (count : Nat) : List Nat :=
  dst.take off ++ src.take count ++ dst.drop (off + count)

/-- `strlen`: number of bytes before the first null terminator. -/
def strlenBytes : List Nat → Nat
  | [] => 0
  | b :: rest => if b = 0 then 0 else strlenBytes rest + 1

/-- The content of a C string: the bytes before the first null terminator. -/
def strBytes (s : List Nat) : List Nat := s.takeWhile (fun b => b != 0)

/-- `memcmp` on the first `n` bytes: `0` when they agree, otherwise the
difference of the first differing bytes (as unsigned values). -/
def memcmpBytes : List Nat → List Nat → Nat → Int
  | _, _, 0 => 0
  | [], _, _ + 1 => 0
  | _ :: _, [], _ + 1 => 0
  | a :: as, b :: bs, n + 1 =>
    if a = b then memcmpBytes as bs n else (a : Int) - (b : Int)

/-- `strncmp` on at most `n` bytes: like `memcmp` but stopping at a null
terminator common to both strings. -/
def strncmpBytes : List Nat → List Nat → Nat → Int
  | _, _, 0 => 0
  | [], _, _ + 1 => 0
  | _ :: _, [], _ + 1 => 0
  | a :: as, b :: bs, n + 1 =>
    if a = b then (if a = 0 then 0 else strncmpBytes as bs n)
    else (a : Int) - (b : Int)

/-- `checked_memcpy`: destination-bounds checked `memcpy`; aborts on
overflow (reporting the sizes) or on a null pointer. -/
def checked_memcpy (destination : CPtr) (destination_size : Nat)
    (source : CPtr) (count : Nat) : CResult (List Nat) :=
  if destination_size < count then
    .violation (.bufferOverflowWithSize destination_size count)
  else if source.null = true ∨ destination.null = true then
    .violation .nullPointer
  else
    .ok (memWrite destination.data 0 source.data count)

/-- `checked_memcpy_offset`: destination-bounds checked `memcpy` writing at
`destination + offset`.  The overflow diagnostic reports
`destination_size - offset` computed in `size_t` arithmetic; there is no
null-pointer check. -/
def checked_memcpy_offset (destination : CPtr) (destination_size : Nat)
    (offset : Nat) (source : CPtr) (count : Nat) : CResult (List Nat) :=
  if destination_size < count ∨ destination_size ≤ offset then
    .violation (.bufferOverflowWithSize ((destination_size + sizeMod - offset) % sizeMod) count)
  else
    .ok (memWrite destination.data offset source.data count)

/-- `checked_memcpy_robust`: bounds checks both the destination and the
source capacity; aborts with a generic overflow diagnostic. -/
def checked_memcpy_robust (destination : List Nat) (destination_size : Nat)
    (source : List Nat) (source_size : Nat) (count : Nat) : CResult (List Nat) :=
  if destination_size < count ∨ source_size < count then
    .violation .bufferOverflow
  else
    .ok (memWrite destination 0 source count)

/-- `try_checked_memcpy`: destination-bounds checked `memcpy` returning an
error code; the pair holds the code and the destination bytes after the
call. -/
def try_checked_memcpy (destination : List Nat) (destination_size : Nat)
    (source : List Nat) (count : Nat) : Nat × List Nat :=
  if destination_size < count then
    (ERR_POTENTIAL_BUFFER_OVERFLOW, destination)
  else
    (0, memWrite destination 0 source count)

/-- `try_checked_memcpy_robust`: bounds checks both capacities, returning an
error code instead of aborting. -/
def try_checked_memcpy_robust (destination : List Nat) (destination_size : Nat)
    (source : List Nat) (source_size : Nat) (count : Nat) : Nat × List Nat :=
  if destination_size < count ∨ source_size < count then
    (ERR_POTENTIAL_BUFFER_OVERFLOW, destination)
  else
    (0, memWrite destination 0 source count)

/-- `checked_strcat`: bounds checked `strcat`.  Computes both string
lengths, then checks (in this order): zero destination capacity, additive
wraparound of the total length, and fit of the total length below the
capacity; on success appends the source string and a fresh terminator. -/
def checked_strcat (destination : List Nat) (destination_size : Nat)
    (source : List Nat) : CResult (List Nat) :=
  let dest_str_len := strlenBytes destination
  let src_str_len := strlenBytes source
  let tot_str_len := (dest_str_len + src_str_len) % sizeMod
  if destination_size = 0 then
    .violation (.bufferOverflowWithSize destination_size tot_str_len)
  else if tot_str_len < dest_str_len then
    .violation .integerOverflow
  else if destination_size - 1 < tot_str_len then
    .violation (.bufferOverflowWithSize (destination_size - 1) tot_str_len)
  else
    .ok (memWrite (memWrite destination dest_str_len source src_str_len) tot_str_len [0] 1)

/-- `try_checked_strcat`: bounds checked `strcat` returning an error code;
the zero-capacity check precedes the length computations. -/
def try_checked_strcat (destination : List Nat) (destination_size : Nat)
    (source : List Nat) : Nat × List Nat :=
  if destination_size = 0 then
    (ERR_POTENTIAL_BUFFER_OVERFLOW, destination)
  else
    let dest_str_len := strlenBytes destination
    let src_str_len := strlenBytes source
    if (dest_str_len + src_str_len) % sizeMod < dest_str_len then
      (ERR_POTENTIAL_INTEGER_OVERFLOW, destination)
    else if destination_size - 1 < (dest_str_len + src_str_len) % sizeMod then
      (ERR_POTENTIAL_BUFFER_OVERFLOW, destination)
    else
      (0, memWrite (memWrite destination dest_str_len source src_str_len)
            ((dest_str_len + src_str_len) % sizeMod) [0] 1)

/-- `checked_memcmp`: aborts with an out-of-bounds-read violation when the
requested length exceeds either declared capacity, otherwise delegates to
`memcmp`. -/
def checked_memcmp (ptr1 : List Nat) (ptr1_size : Nat)
    (ptr2 : List Nat) (ptr2_size : Nat) (num : Nat) : CResult Int :=
  if num > ptr1_size ∨ num > ptr2_size then
    .violation .oobRead
  else
    .ok (memcmpBytes ptr1 ptr2 num)

/-- `checked_strncmp`: aborts with an out-of-bounds-read violation when the
requested length exceeds either declared capacity, otherwise delegates to
`strncmp`. -/
def checked_strncmp (str1 : List Nat) (str1_size : Nat)
    (str2 : List Nat) (str2_size : Nat) (count : Nat) : CResult Int :=
  if str1_size < count ∨ str2_size < count then
    .violation .oobRead
  else
    .ok (strncmpBytes str1 str2 count)

/-- `checked_memset`: destination-bounds checked `memset`; fills the first
`count` bytes with the low 8 bits of the `int` fill value. -/
def checked_memset (destination : List Nat) (destination_size : Nat)
    (ch : Int) (count : Nat) : CResult (List Nat) :=
  if count > destination_size then
    .violation .bufferOverflow
  else
    .ok (memWrite destination 0 (List.replicate count (ch % 256).toNat) count)

theorem strlenBytes_le_length (s : List Nat) : strlenBytes s ≤ s.length := by
  induction s with
  | nil => simp [strlenBytes]
  | cons b rest ih =>
    by_cases hb : b = 0
    · simp [strlenBytes, hb]
    · simp only [strlenBytes, hb, if_false, List.length_cons]
      omega

theorem mem_take_strlenBytes_ne_zero (s : List Nat) :
    ∀ x ∈ s.take (strlenBytes s), x ≠ 0 := by
  induction s with
  | nil => intro x hx; simp at hx
  | cons b rest ih =>
    intro x hx
    by_cases hb : b = 0
    · simp [strlenBytes, hb] at hx
    · simp only [strlenBytes, hb, if_false, List.take_succ_cons, List.mem_cons] at hx
      rcases hx with h | h
      · exact h ▸ hb
      · exact ih x h

theorem strlenBytes_append_zero (xs ys : List Nat) (h : ∀ x ∈ xs, x ≠ 0) :
    strlenBytes (xs ++ 0 :: ys) = xs.length := by
  induction xs with
  | nil => simp [strlenBytes]
  | cons b rest ih =>
    have hb : b ≠ 0 := h b (by simp)
    simp [strlenBytes, hb, ih (fun x hx => h x (by simp [hx]))]

theorem strlenBytes_replicate_one (n : Nat) :
    strlenBytes (List.replicate n 1 ++ [0]) = n := by
  have := strlenBytes_append_zero (List.replicate n 1) []
    (fun x hx => by simp [List.eq_of_mem_replicate hx])
  simpa using this

theorem memWrite_zero (d s : List Nat) (c : Nat) :
    memWrite d 0 s c = s.take c ++ d.drop c := by
  simp [memWrite]

/-- Claim C3: the validation of `checked_memcpy_offset` accepts inputs with
`count ≤ destination_size` and `offset < destination_size` even though
`offset + count > destination_size`, and the copy then writes bytes at
destination positions at or beyond `destination_size`.  Concretely, with
capacity 4, offset 3 and count 2 the call is accepted and modifies the byte
at position 4. -/
theorem claim_C3_offset_gap :
    2 ≤ 4 ∧ 3 < 4 ∧ 4 < 3 + 2 ∧
    checked_memcpy_offset ⟨false, [10, 11, 12, 13, 14, 15, 16, 17]⟩ 4 3
        ⟨false, [1, 2]⟩ 2 = .ok [10, 11, 12, 1, 2, 15, 16, 17] ∧
    ([10, 11, 12, 1, 2, 15, 16, 17] : List Nat).getD 4 0 ≠
        ([10, 11, 12, 13, 14, 15, 16, 17] : List Nat).getD 4 0 := by
  decide

/-- Claim C10: the try-family error codes are fixed and pairwise distinct
(`Success = 0`, `BufferOverflow = 34` matching ERANGE,
`IntegerOverflow = 75` matching EOVERFLOW), and every try-family function
returns one of these codes and no others. -/
theorem claim_C10_error_codes :
    ERR_POTENTIAL_BUFFER_OVERFLOW = 34 ∧ ERR_POTENTIAL_INTEGER_OVERFLOW = 75 ∧
    ERR_POTENTIAL_BUFFER_OVERFLOW ≠ 0 ∧ ERR_POTENTIAL_INTEGER_OVERFLOW ≠ 0 ∧
    ERR_POTENTIAL_BUFFER_OVERFLOW ≠ ERR_POTENTIAL_INTEGER_OVERFLOW ∧
    (∀ d cap s count, (try_checked_memcpy d cap s count).1 = 0 ∨
        (try_checked_memcpy d cap s count).1 = ERR_POTENTIAL_BUFFER_OVERFLOW) ∧
    (∀ d cap s ssize count, (try_checked_memcpy_robust d cap s ssize count).1 = 0 ∨
        (try_checked_memcpy_robust d cap s ssize count).1 = ERR_POTENTIAL_BUFFER_OVERFLOW) ∧
    (∀ d cap s, (try_checked_strcat d cap s).1 = 0 ∨
        (try_checked_strcat d cap s).1 = ERR_POTENTIAL_BUFFER_OVERFLOW ∨
        (try_checked_strcat d cap s).1 = ERR_POTENTIAL_INTEGER_OVERFLOW) := by
  refine ⟨rfl, rfl, by decide, by decide, by decide, ?_, ?_, ?_⟩
  · intro d cap s count
    unfold try_checked_memcpy
    split
    · exact Or.inr rfl
    · exact Or.inl rfl
  · intro d cap s ssize count
    unfold try_checked_memcpy_robust
    split
    · exact Or.inr rfl
    · exact Or.inl rfl
  · intro d cap s
    unfold try_checked_strcat
    split
    · exact Or.inr (Or.inl rfl)
    · dsimp only
      split
      · exact Or.inr (Or.inr rfl)
      · split
        · exact Or.inr (Or.inl rfl)
        · exact Or.inl rfl

/-- Claim C1: for every copy variant, when `count ≤ destination_size` (with
non-null pointers and a source holding at least `count` bytes, and
`count ≤ source_size` for the robust variants), the operation writes the
first `count` source bytes verbatim into the destination, returns the
destination (abort family) or the code 0 (try family), and leaves the
destination bytes beyond position `count - 1` unchanged. -/
theorem claim_C1_copy_success (dd sd : List Nat) (cap ssize count : Nat)
    (hcap : count ≤ cap) (hsrc : count ≤ sd.length) :
    checked_memcpy ⟨false, dd⟩ cap ⟨false, sd⟩ count = .ok (sd.take count ++ dd.drop count) ∧
    try_checked_memcpy dd cap sd count = (0, sd.take count ++ dd.drop count) ∧
    (count ≤ ssize →
      checked_memcpy_robust dd cap sd ssize count = .ok (sd.take count ++ dd.drop count) ∧
      try_checked_memcpy_robust dd cap sd ssize count = (0, sd.take count ++ dd.drop count)) ∧
    (sd.take count ++ dd.drop count).take count = sd.take count ∧
    (sd.take count ++ dd.drop count).drop count = dd.drop count := by
  have hnotlt : ¬ cap < count := Nat.not_lt.mpr hcap
  have hlen : (sd.take count).length = count := by
    simp only [List.length_take]
    omega
  refine ⟨?_, ?_, ?_, List.take_left' hlen, List.drop_left' hlen⟩
  · simp [checked_memcpy, hnotlt, memWrite_zero]
  · simp [try_checked_memcpy, hnotlt, memWrite_zero]
  · intro hs
    have hnotlt2 : ¬ ssize < count := Nat.not_lt.mpr hs
    constructor
    · simp [checked_memcpy_robust, hnotlt, hnotlt2, memWrite_zero]
    · simp [try_checked_memcpy_robust, hnotlt, hnotlt2, memWrite_zero]

/-- Witness for claim C1 at concrete inputs (capacity 3, two bytes copied). -/
theorem claim_C1_copy_success_witness :
    checked_memcpy ⟨false, [9, 9, 9]⟩ 3 ⟨false, [5, 6]⟩ 2 = .ok [5, 6, 9] ∧
    try_checked_memcpy [9, 9, 9] 3 [5, 6] 2 = (0, [5, 6, 9]) ∧
    checked_memcpy_robust [9, 9, 9] 3 [5, 6] 2 2 = .ok [5, 6, 9] ∧
    try_checked_memcpy_robust [9, 9, 9] 3 [5, 6] 2 2 = (0, [5, 6, 9]) ∧
    ([5, 6, 9] : List Nat).take 2 = [5, 6] ∧
    ([5, 6, 9] : List Nat).drop 2 = [9] := by
  have h := claim_C1_copy_success [9, 9, 9] [5, 6] 3 2 2 (by decide) (by decide)
  exact ⟨h.1, h.2.1, (h.2.2.1 (by decide)).1, (h.2.2.1 (by decide)).2,
    h.2.2.2.1, h.2.2.2.2⟩

/-- Claim C2: when `count` exceeds the destination capacity, `checked_memcpy`
passes the size-annotated buffer-overflow violation to the never-returning
handler before any write, and `try_checked_memcpy` returns the
BufferOverflow code with the destination bytes unchanged;
`try_checked_memcpy_robust` does the same whenever either capacity is
insufficient. -/
theorem claim_C2_copy_overflow (d s : CPtr) (dd sd : List Nat) (cap ssize count : Nat) :
    (cap < count →
      checked_memcpy d cap s count = .violation (.bufferOverflowWithSize cap count) ∧
      try_checked_memcpy dd cap sd count = (ERR_POTENTIAL_BUFFER_OVERFLOW, dd)) ∧
    (cap < count ∨ ssize < count →
      try_checked_memcpy_robust dd cap sd ssize count = (ERR_POTENTIAL_BUFFER_OVERFLOW, dd)) := by
  constructor
  · intro h
    constructor
    · unfold checked_memcpy
      rw [if_pos h]
    · unfold try_checked_memcpy
      rw [if_pos h]
  · intro h
    unfold try_checked_memcpy_robust
    rw [if_pos h]

/-- Witness for claim C2: capacity 1, count 2 (and robust source capacity 0). -/
theorem claim_C2_copy_overflow_witness :
    checked_memcpy ⟨false, [7]⟩ 1 ⟨false, [8, 9]⟩ 2 = .violation (.bufferOverflowWithSize 1 2) ∧
    try_checked_memcpy [7] 1 [8, 9] 2 = (ERR_POTENTIAL_BUFFER_OVERFLOW, [7]) ∧
    try_checked_memcpy_robust [7] 1 [8, 9] 0 2 = (ERR_POTENTIAL_BUFFER_OVERFLOW, [7]) := by
  have h := claim_C2_copy_overflow ⟨false, [7]⟩ ⟨false, [8, 9]⟩ [7] [8, 9] 1 0 2
  exact ⟨(h.1 (by decide)).1, (h.1 (by decide)).2, h.2 (Or.inl (by decide))⟩

/-- Claim C9: `checked_memset` with `count ≤ destination_size` makes the
first `count` destination bytes equal the low 8 bits of the fill value and
returns the destination; with `count > destination_size` it raises a
buffer-overflow violation without writing. -/
theorem claim_C9_memset (dd : List Nat) (cap : Nat) (ch : Int) (count : Nat) :
    (count ≤ cap →
      checked_memset dd cap ch count =
        .ok (List.replicate count (ch % 256).toNat ++ dd.drop count) ∧
      (∀ i, i < count →
        (List.replicate count (ch % 256).toNat ++ dd.drop count).getD i 0 = (ch % 256).toNat) ∧
      (List.replicate count (ch % 256).toNat ++ dd.drop count).drop count = dd.drop count) ∧
    (cap < count → checked_memset dd cap ch count = .violation .bufferOverflow) := by
  constructor
  · intro h
    have hnot : ¬ count > cap := by omega
    refine ⟨?_, ?_, List.drop_left' (by simp)⟩
    · unfold checked_memset
      rw [if_neg hnot]
      simp [memWrite_zero, List.take_replicate]
    · intro i hi
      have hil : i < (List.replicate count (ch % 256).toNat).length := by simp [hi]
      rw [List.getD_eq_getElem?_getD, List.getElem?_append_left hil, List.getElem?_replicate,
        if_pos hi]
      rfl
  · intro h
    unfold checked_memset
    rw [if_pos h]

/-- Witness for claim C9: fill value -1 (low byte 255), capacity 3, then an
overflowing request at capacity 1. -/
theorem claim_C9_memset_witness :
    checked_memset [1, 2, 3] 3 (-1) 2 = .ok [255, 255, 3] ∧
    ([255, 255, 3] : List Nat).getD 1 0 = ((-1 : Int) % 256).toNat ∧
    ([255, 255, 3] : List Nat).drop 2 = [3] ∧
    checked_memset [1, 2, 3] 1 (-1) 2 = .violation .bufferOverflow := by
  have h := claim_C9_memset [1, 2, 3] 3 (-1) 2
  have h2 := claim_C9_memset [1, 2, 3] 1 (-1) 2
  exact ⟨(h.1 (by decide)).1, (h.1 (by decide)).2.1 1 (by decide),
    (h.1 (by decide)).2.2, h2.2 (by decide)⟩

/-- Claim C4: `checked_memcpy_offset` raises an overflow violation exactly
when `count` exceeds the capacity or `offset ≥` the capacity; the reported
available size is the `size_t` difference `destination_size - offset`,
equal to the plain difference when `offset ≤ destination_size` and
wrapping modulo `2 ^ 64` when `offset` exceeds it; and the function
performs no null-pointer check on either pointer. -/
theorem claim_C4_offset_validation (d s : CPtr) (cap offset count : Nat)
    (hcap : cap < sizeMod) (hoff : offset < sizeMod) :
    ((∃ v, checked_memcpy_offset d cap offset s count = .violation v) ↔
      (cap < count ∨ cap ≤ offset)) ∧
    (offset ≤ cap → (cap < count ∨ cap ≤ offset) →
      checked_memcpy_offset d cap offset s count =
        .violation (.bufferOverflowWithSize (cap - offset) count)) ∧
    (cap < offset →
      checked_memcpy_offset d cap offset s count =
        .violation (.bufferOverflowWithSize (sizeMod - (offset - cap)) count)) ∧
    checked_memcpy_offset d cap offset s count =
      checked_memcpy_offset ⟨false, d.data⟩ cap offset ⟨false, s.data⟩ count ∧
    checked_memcpy_offset d cap offset s count ≠ .violation .nullPointer := by
  have hs0 : 0 < sizeMod := by norm_num [sizeMod]
  by_cases hcond : cap < count ∨ cap ≤ offset
  · have heq : checked_memcpy_offset d cap offset s count =
        .violation (.bufferOverflowWithSize ((cap + sizeMod - offset) % sizeMod) count) := by
      unfold checked_memcpy_offset
      rw [if_pos hcond]
    have heq' : checked_memcpy_offset ⟨false, d.data⟩ cap offset ⟨false, s.data⟩ count =
        .violation (.bufferOverflowWithSize ((cap + sizeMod - offset) % sizeMod) count) := by
      unfold checked_memcpy_offset
      rw [if_pos hcond]
    refine ⟨⟨fun _ => hcond, fun _ => ⟨_, heq⟩⟩, ?_, ?_, by rw [heq, heq'], ?_⟩
    · intro h1 _
      rw [heq]
      have e : cap + sizeMod - offset = sizeMod + (cap - offset) := by omega
      rw [e, Nat.add_mod_left, Nat.mod_eq_of_lt (by omega)]
    · intro h1
      rw [heq]
      have e : cap + sizeMod - offset = sizeMod - (offset - cap) := by omega
      rw [e, Nat.mod_eq_of_lt (by omega)]
    · rw [heq]
      simp
  · have hok : checked_memcpy_offset d cap offset s count =
        .ok (memWrite d.data offset s.data count) := by
      unfold checked_memcpy_offset
      rw [if_neg hcond]
    have hok' : checked_memcpy_offset ⟨false, d.data⟩ cap offset ⟨false, s.data⟩ count =
        .ok (memWrite d.data offset s.data count) := by
      unfold checked_memcpy_offset
      rw [if_neg hcond]
    refine ⟨⟨?_, fun h => absurd h hcond⟩, ?_, ?_, by rw [hok, hok'], ?_⟩
    · rintro ⟨v, hv⟩
      rw [hok] at hv
      exact absurd hv (by simp)
    · intro _ h2
      exact absurd h2 hcond
    · intro h1
      exact absurd (Or.inr (Nat.le_of_lt h1)) hcond
    · rw [hok]
      simp

/-- Witness for claim C4: capacity 4 with offset 2 and count 9 (reported
available 2), and capacity 4 with offset 10 (reported available wraps to
`2 ^ 64 - 6`), the latter with null pointers to exhibit the missing null
check. -/
theorem claim_C4_offset_validation_witness :
    checked_memcpy_offset ⟨false, [1, 2, 3, 4]⟩ 4 2 ⟨false, [9, 9, 9, 9, 9, 9, 9, 9, 9]⟩ 9 =
      .violation (.bufferOverflowWithSize 2 9) ∧
    checked_memcpy_offset ⟨true, [1, 2, 3, 4]⟩ 4 10 ⟨true, [5]⟩ 1 =
      .violation (.bufferOverflowWithSize (sizeMod - 6) 1) ∧
    checked_memcpy_offset ⟨true, [1, 2, 3, 4]⟩ 4 10 ⟨true, [5]⟩ 1 ≠
      .violation .nullPointer := by
  have hA := claim_C4_offset_validation ⟨false, [1, 2, 3, 4]⟩ ⟨false, [9, 9, 9, 9, 9, 9, 9, 9, 9]⟩
    4 2 9 (by norm_num [sizeMod]) (by norm_num [sizeMod])
  have hB := claim_C4_offset_validation ⟨true, [1, 2, 3, 4]⟩ ⟨true, [5]⟩
    4 10 1 (by norm_num [sizeMod]) (by norm_num [sizeMod])
  exact ⟨hA.2.1 (by decide) (Or.inl (by decide)), hB.2.2.1 (by decide), hB.2.2.2.2⟩

theorem strcat_write_shape (d s : List Nat) :
    memWrite (memWrite d (strlenBytes d) s (strlenBytes s))
        (strlenBytes d + strlenBytes s) [0] 1 =
      d.take (strlenBytes d) ++ s.take (strlenBytes s) ++ [0] ++
        d.drop (strlenBytes d + strlenBytes s + 1) := by
  have hdl : strlenBytes d ≤ d.length := strlenBytes_le_length d
  have hsl : strlenBytes s ≤ s.length := strlenBytes_le_length s
  have hA : (d.take (strlenBytes d) ++ s.take (strlenBytes s)).length =
      strlenBytes d + strlenBytes s := by
    simp only [List.length_append, List.length_take]
    omega
  unfold memWrite
  rw [List.take_left' hA]
  have e : strlenBytes d + strlenBytes s + 1 =
      (d.take (strlenBytes d) ++ s.take (strlenBytes s)).length + 1 := by rw [hA]
  rw [e, List.drop_append, List.drop_drop, hA]
  rfl

/-- Claim C5: for both concatenate variants, with null-terminated strings,
positive capacity and `strlen(dest) + strlen(src) ≤ destination_size - 1`,
the resulting destination is the original destination content followed by
the source content followed by exactly one null terminator, and the abort
variant returns the destination while the try variant returns code 0. -/
theorem claim_C5_strcat_success (d s : List Nat) (cap : Nat)
    (hpos : 0 < cap) (hW : cap < sizeMod) (hlen : cap ≤ d.length)
    (hd0 : (0 : Nat) ∈ d) (hs0 : (0 : Nat) ∈ s)
    (hfit : strlenBytes d + strlenBytes s ≤ cap - 1) :
    checked_strcat d cap s =
      .ok (d.take (strlenBytes d) ++ s.take (strlenBytes s) ++ [0] ++
        d.drop (strlenBytes d + strlenBytes s + 1)) ∧
    try_checked_strcat d cap s =
      (0, d.take (strlenBytes d) ++ s.take (strlenBytes s) ++ [0] ++
        d.drop (strlenBytes d + strlenBytes s + 1)) ∧
    strlenBytes (d.take (strlenBytes d) ++ s.take (strlenBytes s) ++ [0] ++
        d.drop (strlenBytes d + strlenBytes s + 1)) =
      strlenBytes d + strlenBytes s ∧
    (d.take (strlenBytes d) ++ s.take (strlenBytes s) ++ [0] ++
        d.drop (strlenBytes d + strlenBytes s + 1)).take
        (strlenBytes d + strlenBytes s + 1) =
      d.take (strlenBytes d) ++ s.take (strlenBytes s) ++ [0] := by
  have hdl : strlenBytes d ≤ d.length := strlenBytes_le_length d
  have hsl : strlenBytes s ≤ s.length := strlenBytes_le_length s
  have hsum : strlenBytes d + strlenBytes s < sizeMod := by omega
  have hmod : (strlenBytes d + strlenBytes s) % sizeMod =
      strlenBytes d + strlenBytes s := Nat.mod_eq_of_lt hsum
  have hnot0 : ¬ cap = 0 := by omega
  have hA : (d.take (strlenBytes d) ++ s.take (strlenBytes s)).length =
      strlenBytes d + strlenBytes s := by
    simp only [List.length_append, List.length_take]
    omega
  have hnz : ∀ x ∈ d.take (strlenBytes d) ++ s.take (strlenBytes s), x ≠ 0 := by
    intro x hx
    rcases List.mem_append.mp hx with h | h
    · exact mem_take_strlenBytes_ne_zero d x h
    · exact mem_take_strlenBytes_ne_zero s x h
  refine ⟨?_, ?_, ?_, ?_⟩
  · unfold checked_strcat
    dsimp only
    rw [hmod, if_neg hnot0, if_neg (by omega), if_neg (by omega), strcat_write_shape]
  · unfold try_checked_strcat
    dsimp only
    rw [hmod, if_neg hnot0, if_neg (by omega), if_neg (by omega), strcat_write_shape]
  · have e : d.take (strlenBytes d) ++ s.take (strlenBytes s) ++ [0] ++
        d.drop (strlenBytes d + strlenBytes s + 1) =
        (d.take (strlenBytes d) ++ s.take (strlenBytes s)) ++
          (0 :: d.drop (strlenBytes d + strlenBytes s + 1)) := by
      simp
    rw [e, strlenBytes_append_zero _ _ hnz, hA]
  · have hA1 : (d.take (strlenBytes d) ++ s.take (strlenBytes s) ++ [0]).length =
        strlenBytes d + strlenBytes s + 1 := by
      simp only [List.length_append, List.length_take, List.length_cons, List.length_nil]
      omega
    exact List.take_left' hA1

/-- Witness for claim C5: Scenario C — destination "foo" in a buffer of
capacity 8, source "bar"; the result is "foobar" with one terminator. -/
theorem claim_C5_strcat_success_witness :
    checked_strcat [102, 111, 111, 0, 9, 9, 9, 9] 8 [98, 97, 114, 0] =
      .ok [102, 111, 111, 98, 97, 114, 0, 9] ∧
    try_checked_strcat [102, 111, 111, 0, 9, 9, 9, 9] 8 [98, 97, 114, 0] =
      (0, [102, 111, 111, 98, 97, 114, 0, 9]) ∧
    strlenBytes [102, 111, 111, 98, 97, 114, 0, 9] = 6 ∧
    ([102, 111, 111, 98, 97, 114, 0, 9] : List Nat).take 7 =
      [102, 111, 111, 98, 97, 114, 0] := by
  have h := claim_C5_strcat_success [102, 111, 111, 0, 9, 9, 9, 9] [98, 97, 114, 0] 8
    (by decide) (by norm_num [sizeMod]) (by decide) (by decide) (by decide) (by decide)
  exact ⟨h.1, h.2.1, h.2.2.1, h.2.2.2⟩

theorem strcat_zero_cap (d s : List Nat) :
    checked_strcat d 0 s =
      .violation (.bufferOverflowWithSize 0 ((strlenBytes d + strlenBytes s) % sizeMod)) ∧
    try_checked_strcat d 0 s = (ERR_POTENTIAL_BUFFER_OVERFLOW, d) := by
  constructor
  · unfold checked_strcat
    dsimp only
    rw [if_pos rfl]
  · unfold try_checked_strcat
    rw [if_pos rfl]

theorem strcat_wrap_behavior (d s : List Nat) (cap : Nat) (h0 : cap ≠ 0)
    (hwrap : (strlenBytes d + strlenBytes s) % sizeMod < strlenBytes d) :
    checked_strcat d cap s = .violation .integerOverflow ∧
    try_checked_strcat d cap s = (ERR_POTENTIAL_INTEGER_OVERFLOW, d) := by
  constructor
  · unfold checked_strcat
    dsimp only
    rw [if_neg h0, if_pos hwrap]
  · unfold try_checked_strcat
    rw [if_neg h0]
    dsimp only
    rw [if_pos hwrap]

/-- A null-terminated string of 2^63 non-null bytes; its length sum with
itself wraps around in `size_t` arithmetic. -/
def hugeStr : List Nat := List.replicate (2 ^ 63) 1 ++ [0]

theorem strlenBytes_hugeStr : strlenBytes hugeStr = 2 ^ 63 :=
  strlenBytes_replicate_one (2 ^ 63)

theorem hugeStr_wrap : (strlenBytes hugeStr + strlenBytes hugeStr) % sizeMod = 0 := by
  rw [strlenBytes_hugeStr]
  norm_num [sizeMod]

/-- Counterexample to claim C6 as stated: with capacity 5 and two strings of
length 2^63 each, the string length sum is at least the capacity, yet both
concatenate variants report integer overflow rather than the claimed
buffer overflow. -/
theorem claim_C6_counterexample :
    5 ≤ strlenBytes hugeStr + strlenBytes hugeStr ∧
    checked_strcat hugeStr 5 hugeStr = .violation .integerOverflow ∧
    try_checked_strcat hugeStr 5 hugeStr = (ERR_POTENTIAL_INTEGER_OVERFLOW, hugeStr) ∧
    ERR_POTENTIAL_INTEGER_OVERFLOW ≠ ERR_POTENTIAL_BUFFER_OVERFLOW := by
  have hwrap : (strlenBytes hugeStr + strlenBytes hugeStr) % sizeMod <
      strlenBytes hugeStr := by
    rw [hugeStr_wrap, strlenBytes_hugeStr]
    norm_num
  have h := strcat_wrap_behavior hugeStr hugeStr 5 (by norm_num) hwrap
  exact ⟨by rw [strlenBytes_hugeStr]; norm_num, h.1, h.2, by decide⟩

/-- Claim C6 (amended): for both concatenate variants, a zero destination
capacity always yields the buffer-overflow violation/code with no write;
and when the capacity is non-zero, the string length sum does not wrap in
`size_t` (sum below 2^64) and the sum equals or exceeds the capacity, the
operation yields the buffer-overflow violation/code with no write.  (When
the sum wraps, the integer-overflow path takes precedence.) -/
theorem claim_C6_strcat_overflow (d s : List Nat) (cap : Nat) :
    (checked_strcat d 0 s =
      .violation (.bufferOverflowWithSize 0 ((strlenBytes d + strlenBytes s) % sizeMod)) ∧
     try_checked_strcat d 0 s = (ERR_POTENTIAL_BUFFER_OVERFLOW, d)) ∧
    (0 < cap → strlenBytes d + strlenBytes s < sizeMod →
      cap ≤ strlenBytes d + strlenBytes s →
      checked_strcat d cap s =
        .violation (.bufferOverflowWithSize (cap - 1) (strlenBytes d + strlenBytes s)) ∧
      try_checked_strcat d cap s = (ERR_POTENTIAL_BUFFER_OVERFLOW, d)) := by
  refine ⟨strcat_zero_cap d s, ?_⟩
  intro hpos hsum hge
  have hmod : (strlenBytes d + strlenBytes s) % sizeMod =
      strlenBytes d + strlenBytes s := Nat.mod_eq_of_lt hsum
  constructor
  · unfold checked_strcat
    dsimp only
    rw [hmod, if_neg (by omega), if_neg (by omega), if_pos (by omega)]
  · unfold try_checked_strcat
    rw [if_neg (by omega)]
    dsimp only
    rw [hmod, if_neg (by omega), if_pos (by omega)]

/-- Witness for the amended claim C6: capacity 0, and capacity 3 with
strings "A" and "BC" (length sum 3). -/
theorem claim_C6_strcat_overflow_witness :
    checked_strcat [65, 0] 0 [66, 67, 0] = .violation (.bufferOverflowWithSize 0 3) ∧
    try_checked_strcat [65, 0] 0 [66, 67, 0] = (ERR_POTENTIAL_BUFFER_OVERFLOW, [65, 0]) ∧
    checked_strcat [65, 0] 3 [66, 67, 0] = .violation (.bufferOverflowWithSize 2 3) ∧
    try_checked_strcat [65, 0] 3 [66, 67, 0] = (ERR_POTENTIAL_BUFFER_OVERFLOW, [65, 0]) := by
  have h := claim_C6_strcat_overflow [65, 0] [66, 67, 0] 3
  have h2 := h.2 (by decide) (by norm_num [strlenBytes, sizeMod]) (by decide)
  exact ⟨h.1.1, h.1.2, h2.1, h2.2⟩

/-- Counterexample to claim C7 as stated: with destination capacity 0 and
two strings of length 2^63 (whose `size_t` length sum wraps to 0, smaller
than either operand), both concatenate variants report buffer overflow,
not the claimed integer overflow. -/
theorem claim_C7_counterexample :
    (strlenBytes hugeStr + strlenBytes hugeStr) % sizeMod < strlenBytes hugeStr ∧
    checked_strcat hugeStr 0 hugeStr = .violation (.bufferOverflowWithSize 0 0) ∧
    try_checked_strcat hugeStr 0 hugeStr = (ERR_POTENTIAL_BUFFER_OVERFLOW, hugeStr) ∧
    ERR_POTENTIAL_BUFFER_OVERFLOW ≠ ERR_POTENTIAL_INTEGER_OVERFLOW := by
  have h := strcat_zero_cap hugeStr hugeStr
  have h1 := h.1
  rw [hugeStr_wrap] at h1
  refine ⟨?_, h1, h.2, by decide⟩
  rw [hugeStr_wrap, strlenBytes_hugeStr]
  norm_num

/-- Claim C7 (amended): for both concatenate variants, whenever the
destination capacity is non-zero and the `size_t` addition of the two
string lengths wraps around (the reduced sum is smaller than the
destination length operand), the operation raises the integer-overflow
violation / returns the IntegerOverflow code.  (With capacity zero the
zero-capacity buffer-overflow check fires first.) -/
theorem claim_C7_strcat_wrap (d s : List Nat) (cap : Nat)
    (h0 : cap ≠ 0)
    (hwrap : (strlenBytes d + strlenBytes s) % sizeMod < strlenBytes d) :
    checked_strcat d cap s = .violation .integerOverflow ∧
    try_checked_strcat d cap s = (ERR_POTENTIAL_INTEGER_OVERFLOW, d) :=
  strcat_wrap_behavior d s cap h0 hwrap

/-- Witness for the amended claim C7: capacity 5 with two wrapping strings
of length 2^63. -/
theorem claim_C7_strcat_wrap_witness :
    checked_strcat hugeStr 5 hugeStr = .violation .integerOverflow ∧
    try_checked_strcat hugeStr 5 hugeStr = (ERR_POTENTIAL_INTEGER_OVERFLOW, hugeStr) := by
  apply claim_C7_strcat_wrap
  · norm_num
  · rw [hugeStr_wrap, strlenBytes_hugeStr]
    norm_num

theorem memcmpBytes_swap (n : Nat) (p1 p2 : List Nat) :
    memcmpBytes p2 p1 n = -(memcmpBytes p1 p2 n) := by
  induction n generalizing p1 p2 with
  | zero => simp [memcmpBytes]
  | succ m ih =>
    cases p1 with
    | nil =>
      cases p2 with
      | nil => simp [memcmpBytes]
      | cons b bs => simp [memcmpBytes]
    | cons a as =>
      cases p2 with
      | nil => simp [memcmpBytes]
      | cons b bs =>
        by_cases hab : a = b
        · subst hab
          simp only [memcmpBytes, if_pos rfl]
          exact ih as bs
        · have hba : ¬ b = a := fun h => hab h.symm
          simp only [memcmpBytes, if_neg hab, if_neg hba]
          omega

theorem memcmpBytes_eq_zero_iff (n : Nat) (p1 p2 : List Nat)
    (h1 : n ≤ p1.length) (h2 : n ≤ p2.length) :
    (memcmpBytes p1 p2 n = 0 ↔ p1.take n = p2.take n) := by
  induction n generalizing p1 p2 with
  | zero => simp [memcmpBytes]
  | succ m ih =>
    cases p1 with
    | nil => simp at h1
    | cons a as =>
      cases p2 with
      | nil => simp at h2
      | cons b bs =>
        have h1' : m ≤ as.length := by
          simp only [List.length_cons] at h1
          omega
        have h2' : m ≤ bs.length := by
          simp only [List.length_cons] at h2
          omega
        by_cases hab : a = b
        · subst hab
          simp only [memcmpBytes, if_pos rfl, List.take_succ_cons, List.cons.injEq, true_and]
          exact ih as bs h1' h2'
        · simp only [memcmpBytes, if_neg hab, List.take_succ_cons, List.cons.injEq]
          constructor
          · intro h
            exfalso
            omega
          · rintro ⟨h, -⟩
            exact absurd h hab

theorem memcmpBytes_neg_iff (n : Nat) (p1 p2 : List Nat)
    (h1 : n ≤ p1.length) (h2 : n ≤ p2.length) :
    (memcmpBytes p1 p2 n < 0 ↔
      ∃ i, i < n ∧ p1.take i = p2.take i ∧ p1.getD i 0 < p2.getD i 0) := by
  induction n generalizing p1 p2 with
  | zero => simp [memcmpBytes]
  | succ m ih =>
    cases p1 with
    | nil => simp at h1
    | cons a as =>
      cases p2 with
      | nil => simp at h2
      | cons b bs =>
        have h1' : m ≤ as.length := by
          simp only [List.length_cons] at h1
          omega
        have h2' : m ≤ bs.length := by
          simp only [List.length_cons] at h2
          omega
        by_cases hab : a = b
        · subst hab
          simp only [memcmpBytes, if_pos rfl, eq_self_iff_true, if_true]
          rw [ih as bs h1' h2']
          constructor
          · rintro ⟨i, hi, htake, hlt⟩
            refine ⟨i + 1, by omega, ?_, ?_⟩
            · rw [List.take_succ_cons, List.take_succ_cons, htake]
            · rw [List.getD_cons_succ, List.getD_cons_succ]
              exact hlt
          · rintro ⟨i, hi, htake, hlt⟩
            cases i with
            | zero =>
              rw [List.getD_cons_zero, List.getD_cons_zero] at hlt
              exact absurd hlt (lt_irrefl a)
            | succ j =>
              rw [List.take_succ_cons, List.take_succ_cons] at htake
              injection htake with hhd htl
              refine ⟨j, by omega, htl, ?_⟩
              rw [List.getD_cons_succ, List.getD_cons_succ] at hlt
              exact hlt
        · simp only [memcmpBytes, if_neg hab]
          constructor
          · intro h
            have hlt : a < b := by omega
            exact ⟨0, by omega, by simp, by simpa using hlt⟩
          · rintro ⟨i, hi, htake, hlt⟩
            cases i with
            | zero =>
              have hlt' : a < b := by simpa using hlt
              omega
            | succ j =>
              rw [List.take_succ_cons, List.take_succ_cons] at htake
              injection htake with hhd htl
              exact absurd hhd hab

theorem memcmpBytes_pos_iff (n : Nat) (p1 p2 : List Nat)
    (h1 : n ≤ p1.length) (h2 : n ≤ p2.length) :
    (0 < memcmpBytes p1 p2 n ↔
      ∃ i, i < n ∧ p1.take i = p2.take i ∧ p2.getD i 0 < p1.getD i 0) := by
  have hswap := memcmpBytes_swap n p1 p2
  have hneg := memcmpBytes_neg_iff n p2 p1 h2 h1
  constructor
  · intro h
    have hx : memcmpBytes p2 p1 n < 0 := by omega
    rcases hneg.mp hx with ⟨i, hi, htake, hlt⟩
    exact ⟨i, hi, htake.symm, hlt⟩
  · rintro ⟨i, hi, htake, hlt⟩
    have hx : memcmpBytes p2 p1 n < 0 := hneg.mpr ⟨i, hi, htake.symm, hlt⟩
    omega

theorem strBytes_cons_zero (l : List Nat) : strBytes (0 :: l) = [] := rfl

theorem strBytes_cons_ne (a : Nat) (l : List Nat) (h : a ≠ 0) :
    strBytes (a :: l) = a :: strBytes l := by
  simp [strBytes, List.takeWhile_cons, h]

theorem strncmpBytes_swap (n : Nat) (p1 p2 : List Nat) :
    strncmpBytes p2 p1 n = -(strncmpBytes p1 p2 n) := by
  induction n generalizing p1 p2 with
  | zero => simp [strncmpBytes]
  | succ m ih =>
    cases p1 with
    | nil =>
      cases p2 with
      | nil => simp [strncmpBytes]
      | cons b bs => simp [strncmpBytes]
    | cons a as =>
      cases p2 with
      | nil => simp [strncmpBytes]
      | cons b bs =>
        by_cases hab : a = b
        · subst hab
          by_cases ha0 : a = 0
          · simp [strncmpBytes, ha0]
          · simp only [strncmpBytes, if_pos rfl, if_neg ha0, eq_self_iff_true, if_true]
            exact ih as bs
        · have hba : ¬ b = a := fun h => hab h.symm
          simp only [strncmpBytes, if_neg hab, if_neg hba]
          omega

theorem strncmpBytes_eq_zero_iff (n : Nat) (p1 p2 : List Nat)
    (h1 : n ≤ p1.length) (h2 : n ≤ p2.length) :
    (strncmpBytes p1 p2 n = 0 ↔ strBytes (p1.take n) = strBytes (p2.take n)) := by
  induction n generalizing p1 p2 with
  | zero => simp [strncmpBytes]
  | succ m ih =>
    cases p1 with
    | nil => simp at h1
    | cons a as =>
      cases p2 with
      | nil => simp at h2
      | cons b bs =>
        have h1' : m ≤ as.length := by
          simp only [List.length_cons] at h1
          omega
        have h2' : m ≤ bs.length := by
          simp only [List.length_cons] at h2
          omega
        rw [List.take_succ_cons, List.take_succ_cons]
        by_cases hab : a = b
        · subst hab
          by_cases ha0 : a = 0
          · subst ha0
            simp only [strncmpBytes, if_pos rfl, eq_self_iff_true, if_true,
              strBytes_cons_zero]
          · simp only [strncmpBytes, if_pos rfl, if_neg ha0, eq_self_iff_true, if_true,
              strBytes_cons_ne a _ ha0, List.cons.injEq, true_and]
            exact ih as bs h1' h2'
        · simp only [strncmpBytes, if_neg hab]
          constructor
          · intro h
            exfalso
            omega
          · intro h
            exfalso
            by_cases ha0 : a = 0
            · by_cases hb0 : b = 0
              · exact hab (ha0.trans hb0.symm)
              · subst ha0
                rw [strBytes_cons_zero, strBytes_cons_ne b _ hb0] at h
                exact List.cons_ne_nil _ _ h.symm
            · by_cases hb0 : b = 0
              · subst hb0
                rw [strBytes_cons_ne a _ ha0, strBytes_cons_zero] at h
                exact List.cons_ne_nil _ _ h
              · rw [strBytes_cons_ne a _ ha0, strBytes_cons_ne b _ hb0] at h
                injection h with hh _
                exact hab hh

theorem strncmpBytes_neg_iff (n : Nat) (p1 p2 : List Nat)
    (h1 : n ≤ p1.length) (h2 : n ≤ p2.length) :
    (strncmpBytes p1 p2 n < 0 ↔
      ∃ i, i < n ∧ p1.take i = p2.take i ∧ (0 : Nat) ∉ p1.take i ∧
        p1.getD i 0 < p2.getD i 0) := by
  induction n generalizing p1 p2 with
  | zero => simp [strncmpBytes]
  | succ m ih =>
    cases p1 with
    | nil => simp at h1
    | cons a as =>
      cases p2 with
      | nil => simp at h2
      | cons b bs =>
        have h1' : m ≤ as.length := by
          simp only [List.length_cons] at h1
          omega
        have h2' : m ≤ bs.length := by
          simp only [List.length_cons] at h2
          omega
        by_cases hab : a = b
        · subst hab
          by_cases ha0 : a = 0
          · subst ha0
            simp only [strncmpBytes, if_pos rfl, eq_self_iff_true, if_true]
            constructor
            · intro h
              exact absurd h (by norm_num)
            · rintro ⟨i, hi, htake, hmem, hlt⟩
              exfalso
              cases i with
              | zero =>
                rw [List.getD_cons_zero, List.getD_cons_zero] at hlt
                exact absurd hlt (lt_irrefl 0)
              | succ j =>
                apply hmem
                rw [List.take_succ_cons]
                exact List.mem_cons_self 0 _
          · simp only [strncmpBytes, if_pos rfl, if_neg ha0, eq_self_iff_true, if_true]
            rw [ih as bs h1' h2']
            constructor
            · rintro ⟨i, hi, htake, hmem, hlt⟩
              refine ⟨i + 1, by omega, ?_, ?_, ?_⟩
              · rw [List.take_succ_cons, List.take_succ_cons, htake]
              · rw [List.take_succ_cons]
                intro hmem'
                rcases List.mem_cons.mp hmem' with h0 | h0
                · exact ha0 h0.symm
                · exact hmem h0
              · rw [List.getD_cons_succ, List.getD_cons_succ]
                exact hlt
            · rintro ⟨i, hi, htake, hmem, hlt⟩
              cases i with
              | zero =>
                rw [List.getD_cons_zero, List.getD_cons_zero] at hlt
                exact absurd hlt (lt_irrefl a)
              | succ j =>
                rw [List.take_succ_cons, List.take_succ_cons] at htake
                injection htake with hhd htl
                rw [List.take_succ_cons] at hmem
                refine ⟨j, by omega, htl, fun hq => hmem (List.mem_cons_of_mem a hq), ?_⟩
                rw [List.getD_cons_succ, List.getD_cons_succ] at hlt
                exact hlt
        · simp only [strncmpBytes, if_neg hab]
          constructor
          · intro h
            have hlt : a < b := by omega
            exact ⟨0, by omega, by simp, by simp, by simpa using hlt⟩
          · rintro ⟨i, hi, htake, hmem, hlt⟩
            cases i with
            | zero =>
              have hlt' : a < b := by simpa using hlt
              omega
            | succ j =>
              rw [List.take_succ_cons, List.take_succ_cons] at htake
              injection htake with hhd htl
              exact absurd hhd hab

theorem strncmpBytes_pos_iff (n : Nat) (p1 p2 : List Nat)
    (h1 : n ≤ p1.length) (h2 : n ≤ p2.length) :
    (0 < strncmpBytes p1 p2 n ↔
      ∃ i, i < n ∧ p1.take i = p2.take i ∧ (0 : Nat) ∉ p1.take i ∧
        p2.getD i 0 < p1.getD i 0) := by
  have hswap := strncmpBytes_swap n p1 p2
  have hneg := strncmpBytes_neg_iff n p2 p1 h2 h1
  constructor
  · intro h
    have hx : strncmpBytes p2 p1 n < 0 := by omega
    rcases hneg.mp hx with ⟨i, hi, htake, hmem, hlt⟩
    rw [htake] at hmem
    exact ⟨i, hi, htake.symm, hmem, hlt⟩
  · rintro ⟨i, hi, htake, hmem, hlt⟩
    rw [htake] at hmem
    have hx : strncmpBytes p2 p1 n < 0 := hneg.mpr ⟨i, hi, htake.symm, hmem, hlt⟩
    omega

/-- Claim C8: for `checked_memcmp` and `checked_strncmp`, when the requested
length is within both declared capacities the result is 0 iff all compared
bytes are identical (for the string variant, iff the compared string
contents agree up to the common terminator), and otherwise its sign
matches the unsigned byte-wise ordering of the first differing compared
byte; any request for more bytes than either declared capacity raises the
out-of-bounds-read violation before comparing. -/
theorem claim_C8_compare (p1 p2 : List Nat) (s1 s2 num : Nat)
    (h1 : num ≤ p1.length) (h2 : num ≤ p2.length) :
    ((num ≤ s1 ∧ num ≤ s2) →
      checked_memcmp p1 s1 p2 s2 num = .ok (memcmpBytes p1 p2 num) ∧
      checked_strncmp p1 s1 p2 s2 num = .ok (strncmpBytes p1 p2 num) ∧
      (memcmpBytes p1 p2 num = 0 ↔ p1.take num = p2.take num) ∧
      (memcmpBytes p1 p2 num < 0 ↔
        ∃ i, i < num ∧ p1.take i = p2.take i ∧ p1.getD i 0 < p2.getD i 0) ∧
      (0 < memcmpBytes p1 p2 num ↔
        ∃ i, i < num ∧ p1.take i = p2.take i ∧ p2.getD i 0 < p1.getD i 0) ∧
      (strncmpBytes p1 p2 num = 0 ↔ strBytes (p1.take num) = strBytes (p2.take num)) ∧
      (strncmpBytes p1 p2 num < 0 ↔
        ∃ i, i < num ∧ p1.take i = p2.take i ∧ (0 : Nat) ∉ p1.take i ∧
          p1.getD i 0 < p2.getD i 0) ∧
      (0 < strncmpBytes p1 p2 num ↔
        ∃ i, i < num ∧ p1.take i = p2.take i ∧ (0 : Nat) ∉ p1.take i ∧
          p2.getD i 0 < p1.getD i 0)) ∧
    (s1 < num ∨ s2 < num →
      checked_memcmp p1 s1 p2 s2 num = .violation .oobRead ∧
      checked_strncmp p1 s1 p2 s2 num = .violation .oobRead) := by
  constructor
  · rintro ⟨hs1, hs2⟩
    refine ⟨?_, ?_, memcmpBytes_eq_zero_iff num p1 p2 h1 h2,
      memcmpBytes_neg_iff num p1 p2 h1 h2, memcmpBytes_pos_iff num p1 p2 h1 h2,
      strncmpBytes_eq_zero_iff num p1 p2 h1 h2, strncmpBytes_neg_iff num p1 p2 h1 h2,
      strncmpBytes_pos_iff num p1 p2 h1 h2⟩
    · unfold checked_memcmp
      rw [if_neg (by omega)]
    · unfold checked_strncmp
      rw [if_neg (by omega)]
  · intro h
    constructor
    · unfold checked_memcmp
      rw [if_pos (by omega)]
    · unfold checked_strncmp
      rw [if_pos (by omega)]

/-- Witness for claim C8: buffers `[1, 2]` and `[1, 3]` compared over two
bytes within capacity, and the same request with a declared capacity of
one byte. -/
theorem claim_C8_compare_witness :
    checked_memcmp [1, 2] 2 [1, 3] 2 2 = .ok (memcmpBytes [1, 2] [1, 3] 2) ∧
    (memcmpBytes [1, 2] [1, 3] 2 < 0 ↔
      ∃ i, i < 2 ∧ List.take i [1, 2] = List.take i [1, 3] ∧
        List.getD [1, 2] i 0 < List.getD [1, 3] i 0) ∧
    checked_strncmp [1, 2] 2 [1, 3] 2 2 = .ok (strncmpBytes [1, 2] [1, 3] 2) ∧
    checked_memcmp [1, 2] 1 [1, 3] 2 2 = .violation .oobRead ∧
    checked_strncmp [1, 2] 1 [1, 3] 2 2 = .violation .oobRead := by
  have h := claim_C8_compare [1, 2] [1, 3] 2 2 2 (by decide) (by decide)
  have hA := h.1 ⟨by decide, by decide⟩
  have h2 := claim_C8_compare [1, 2] [1, 3] 1 2 2 (by decide) (by decide)
  have hB := h2.2 (Or.inl (by decide))
  exact ⟨hA.1, hA.2.2.2.1, hA.2.1, hB.1, hB.2⟩
